import Mathlib

/-!
Verification of the tag-matching, tag-normalization, tag-mutation and
tag-rule-resolution core of the FoundryVTT Tagger module, as implemented by
the `Tagger`, `TaggerConfig` and `TaggerHandler` classes in
`src/scripts/module.js` (the class-based version; the older variant kept in
`src/unnamed/part_005` differs only where noted).

Strings are modelled as lists of characters (`Str`); a JavaScript `RegExp`
used as a query is modelled as a boolean match predicate (`Pattern`).  An
entity's durable flag storage (`getFlag`/`setFlag`/`unsetFlag` for the
`tagger.tags` flag) is a `Doc` carrying `Option (List Str)`: `none` is the
unset flag, `some l` a stored array.  JavaScript `Set` iteration order is
insertion order, modelled by `jsSetList` (first occurrences kept).
-/

/-- Characters of a JavaScript string; tags and templates are values of this
type. -/
abbrev Str := List Char

/-- Whitespace as removed by `String.prototype.trim` (restricted to the ASCII
whitespace the tags in this development use). -/
def isWS (c : Char) : Bool := c.isWhitespace

/-- Model of `t.trim()`: drop leading and trailing whitespace. -/
def trimStr (s : Str) : Str := List.rdropWhile isWS (List.dropWhile isWS s)

/-- Model of `inTags.split(",")`: split at every comma, keeping empty pieces
(JavaScript `split` yields `[""]` on the empty string). -/
def splitOnComma : Str → List Str
  | [] => [[]]
  | c :: cs =>
    match splitOnComma cs, decide (c = ',') with
    | r, true => [] :: r
    | [], false => [[c]]
    | h :: t, false => (c :: h) :: t

/-- Model of `new Set(l)` read back with `Array.from`: keep the first
occurrence of every element, in order. -/
def jsSetList (l : List Str) : List Str :=
  l.foldl (fun acc x => if x ∈ acc then acc else acc ++ [x]) []

/-- The array branch of `Tagger._validateTags` in `src/scripts/module.js`
(lines 629-641) on an array of strings: each element is trimmed.  Empty
strings are NOT dropped in this version. -/
def validateTagList (l : List Str) : List Str := l.map trimStr

/-- The string branch of `Tagger._validateTags` in `src/scripts/module.js`:
split on comma, then trim each piece. -/
def validateTagsStr (s : Str) : List Str := (splitOnComma s).map trimStr

/-- The array branch of `Tagger._validateTags` in the variant kept in
`src/unnamed/part_005` (lines 710-722): trim, then `.filter(Boolean)` drops
empty strings. -/
def validateTagsV3List (l : List Str) : List Str :=
  (l.map trimStr).filter (fun t => decide (t ≠ []))

/-- The string branch of `_validateTags` in the `src/unnamed/part_005`
variant: split on comma, trim, drop empty pieces. -/
def validateTagsV3Str (s : Str) : List Str :=
  ((splitOnComma s).map trimStr).filter (fun t => decide (t ≠ []))

/-- An entity's durable tag storage: the `tagger.tags` flag.  `none` models
the unset flag, `some l` a stored array of strings. -/
structure Doc where
  flag : Option (List Str)
deriving DecidableEq

/-- Model of `Tagger.getTags`: read the flag (`?? []` when unset) and pass it
through `_validateTags`, which trims every stored string. -/
def getTags (d : Doc) : List Str := validateTagList (d.flag.getD [])

/-- A compiled query pattern: the match predicate of a JavaScript `RegExp`
tested against one tag via `.test`. -/
abbrev Pattern := Str → Bool

/-- One atom of the regular expressions `_getObjectsByTags` compiles from a
literal query tag: a literal character, the any-character metacharacter, or
the `(.*?)` group a `*` is rewritten to. -/
inductive RAtom where
  | lit (c : Char)
  | anyc
  | star
deriving DecidableEq

/-- The compilation of a literal query tag in `Tagger._getObjectsByTags`
(lines 504-507): lowercase when `caseInsensitive`, then
`new RegExp(("^" + t + "$").replaceAll(".", "\.").replaceAll("*", "(.*?)"))`.
In JavaScript the string literal `"\."` is just `"."`, so that `replaceAll`
is a no-op and `.` remains the any-character metacharacter; `*` becomes
`(.*?)`, modelled as `star`; every other character of the tags in this
development is a regex literal.  The `^...$` anchors are modelled by
`reMatchFull` requiring the whole string to be consumed. -/
def compileQueryTag (ci : Bool) (t : Str) : List RAtom :=
  (if ci then t.map Char.toLower else t).map
    (fun c => if c = '*' then RAtom.star else if c = '.' then RAtom.anyc else RAtom.lit c)

/-- Backtracking matcher for the compiled atoms against a whole string, with
explicit fuel (every step shortens the pattern or the string, so
`pattern length + string length + 1` fuel suffices).  Greediness does not
affect whether a match exists, so `(.*?)` is matched like `(.*)`. -/
def reMatchFuel : Nat → List RAtom → Str → Bool
  | 0, _, _ => false
  | _ + 1, [], s => s.isEmpty
  | f + 1, RAtom.lit c :: ps, s =>
    match s with
    | [] => false
    | a :: as => decide (a = c) && reMatchFuel f ps as
  | f + 1, RAtom.anyc :: ps, s =>
    match s with
    | [] => false
    | _ :: as => reMatchFuel f ps as
  | f + 1, RAtom.star :: ps, s =>
    reMatchFuel f ps s ||
      (match s with
       | [] => false
       | _ :: as => reMatchFuel f (RAtom.star :: ps) as)

/-- Whether a compiled (anchored) pattern matches the whole string. -/
def reMatchFull (ps : List RAtom) (s : Str) : Bool :=
  reMatchFuel (ps.length + s.length + 1) ps s

/-- The options record of `Tagger._getObjectsByTags` (with the scene-lookup
fields resolved away: the object collection is passed directly). -/
structure QOpts where
  matchAny : Bool := false
  matchExactly : Bool := false
  caseInsensitive : Bool := false
  ignore : Option (List Doc) := none

/-- The entity tags as `_testObject` sees them: lowercased first when
`caseInsensitive` is set. -/
def ciTags (ci : Bool) (d : Doc) : List Str :=
  if ci then (getTags d).map (fun t => t.map Char.toLower) else getTags d

/-- Model of `Tagger._testObject` (lines 595-619): count the query patterns
that match at least one of the object's (possibly lowercased) tags, then
decide by `matchAny` / `matchExactly` / default contains-all semantics.
The `if (!objectTags) return false` guard of the source never fires (an
array is always truthy) and is omitted. -/
def testObject (opts : QOpts) (pats : List Pattern) (d : Doc) : Bool :=
  let objectTags := ciTags opts.caseInsensitive d
  let matched := pats.filter (fun p => decide (0 < (objectTags.filter p).length))
  if opts.matchAny then decide (0 < matched.length)
  else if opts.matchExactly then
    decide (matched.length = pats.length) && decide (objectTags.length = pats.length)
  else decide (pats.length ≤ matched.length)

/-- The number of query patterns that match at least one of the given entity
tags (the specification's `matchedCount`). -/
def matchedCount (tags : List Str) (pats : List Pattern) : Nat :=
  (pats.filter (fun p => tags.any p)).length

/-- One element of the query-tag input: a literal string or a pass-through
`RegExp`. -/
inductive QTag where
  | lit (s : Str)
  | re (p : Pattern)

/-- The accepted shapes of `inTags`: a string, a single `RegExp`, or an array
of both. -/
inductive TagInput where
  | strI (s : Str)
  | regI (p : Pattern)
  | arrI (l : List QTag)

/-- Model of `Tagger._validateTags` on query input (module.js version):
strings are split on comma, every string is trimmed, `RegExp`s pass through
untouched. -/
def validateQTags : TagInput → List QTag
  | TagInput.strI s => (splitOnComma s).map (fun piece => QTag.lit (trimStr piece))
  | TagInput.regI p => [QTag.re p]
  | TagInput.arrI l =>
    l.map (fun q => match q with
      | QTag.lit s => QTag.lit (trimStr s)
      | QTag.re p => QTag.re p)

/-- Compile one validated query tag as `_getObjectsByTags` does: a literal is
compiled to an anchored pattern, a `RegExp` passes through as-is. -/
def compileQTag (ci : Bool) : QTag → Pattern
  | QTag.lit s => fun t => reMatchFull (compileQueryTag ci s) t
  | QTag.re p => p

/-- The error thrown by `_getObjectsByTags` when both `matchAny` and
`matchExactly` are requested. -/
def errMsg : String :=
  "Tagger | options.matchAny and options.matchExactly cannot both be true, they are opposites"

/-- Model of `Tagger._getObjectsByTags` (lines 481-522) followed by
`_testObjectsTags` (lines 574-584) for the single-scene path: option
validation (the `matchAny`/`matchExactly` conflict throws before any tag is
compiled or any object is touched), compilation, the `ignore` filter, and
the per-object match test. -/
def getObjectsByTags (opts : QOpts) (objects : List Doc) (inTags : TagInput) :
    Except String (List Doc) :=
  if opts.matchAny && opts.matchExactly then Except.error errMsg
  else
    let pats := (validateQTags inTags).map (compileQTag opts.caseInsensitive)
    let objs := match opts.ignore with
      | none => objects
      | some ig => objects.filter (fun o => decide (o ∉ ig))
    Except.ok (objs.filter (testObject opts pats))

/-- State-passing wrapper for `Tagger.getByTag`: the source performs no
`setFlag`/`unsetFlag` on this path, so the world (every entity's flag
storage) is returned unchanged alongside the result. -/
def runGetByTag (opts : QOpts) (inTags : TagInput) (world : List Doc) :
    Except String (List Doc) × List Doc :=
  (getObjectsByTags opts world inTags, world)

/-- State-passing wrapper for `Tagger.hasTags`: runs `_getObjectsByTags` over
the given objects and tests `length > 0`; no flag write occurs. -/
def runHasTags (objs : List Doc) (inTags : TagInput) (opts : QOpts)
    (world : List Doc) : Except String Bool × List Doc :=
  ((getObjectsByTags opts objs inTags).map (fun l => decide (0 < l.length)), world)

/-- The keyword options of `Tagger._updateTags` (lines 428-434). -/
structure UOpts where
  isSetting : Bool := false
  isAdding : Bool := true
  isToggling : Bool := false
  applyRules : Bool := false

/-- The toggling pass of `_updateTags` (lines 445-452): walk the entity's
tags; a tag found in the incoming set is dropped and deleted from the
incoming set, the others are kept.  Returns (kept tags, remaining incoming
tags). -/
def toggleScan : List Str → List Str → List Str × List Str
  | [], inc => ([], inc)
  | t :: ts, inc =>
    if t ∈ inc then toggleScan ts (inc.filter (fun x => decide (x ≠ t)))
    else
      let r := toggleScan ts inc
      (t :: r.1, r.2)

/-- The new tag collection `_updateTags` computes for one entity before the
persistence step: toggle / set / add / remove on the `Set` of the entity's
current tags. -/
def computeNewTags (opts : UOpts) (inTags : List Str) (d : Doc) : List Str :=
  let tags := jsSetList (getTags d)
  if opts.isToggling then
    let inc := jsSetList inTags
    let r := toggleScan tags inc
    jsSetList (r.1 ++ r.2)
  else if opts.isSetting then jsSetList inTags
  else if opts.isAdding then jsSetList (tags ++ inTags)
  else tags.filter (fun t => decide (t ∉ inTags))

/-- Model of `Tagger._updateTags` (lines 428-470) for one entity.  `inTags =
none` models the falsy `inTags = false` of `clearAllTags`/`applyTagRules`
(an empty array is truthy in JavaScript and is `some []` here).  When the
computed collection is empty and rules are not being applied the flag is
unset; otherwise `setFlag` stores the collection, after passing it through
`TaggerHandler.applyRules` (the `rules` parameter) when `applyRules` is
set. -/
def updateDoc (rules : List Str → List Str) (opts : UOpts)
    (inTags : Option (List Str)) (d : Doc) : Doc :=
  if inTags.isNone && !opts.applyRules then { flag := none }
  else
    let tags := computeNewTags opts (inTags.getD []) d
    if decide (tags.length = 0) && !opts.applyRules then { flag := none }
    else { flag := some (if opts.applyRules then rules tags else tags) }

/-- Model of `Tagger.setTags` on one entity: validate, then `_updateTags`
with `isSetting`. -/
def setTagsOp (T : List Str) (d : Doc) : Doc :=
  updateDoc id { isSetting := true } (some (validateTagList T)) d

/-- Model of `Tagger.addTags` on one entity. -/
def addTagsOp (T : List Str) (d : Doc) : Doc :=
  updateDoc id {} (some (validateTagList T)) d

/-- Model of `Tagger.removeTags` on one entity. -/
def removeTagsOp (T : List Str) (d : Doc) : Doc :=
  updateDoc id { isAdding := false } (some (validateTagList T)) d

/-- Model of `Tagger.toggleTags` on one entity. -/
def toggleTagsOp (T : List Str) (d : Doc) : Doc :=
  updateDoc id { isToggling := true } (some (validateTagList T)) d

/-- Model of `Tagger.clearAllTags` on one entity (`inTags` is falsy). -/
def clearAllTagsOp (d : Doc) : Doc :=
  updateDoc id {} none d

/-- Model of `Tagger.applyTagRules` on one entity: `_updateTags` with
`applyRules` and no incoming tags; the rule engine is the `rules`
parameter. -/
def applyTagRulesOp (rules : List Str → List Str) (d : Doc) : Doc :=
  updateDoc rules { applyRules := true } none d

/-- The language of the capture group `([1-9]+[0-9]*)` the counter rule
builds: a nonempty digit string whose first character is nonzero (the
regex's `[1-9]+[0-9]*` denotes exactly these strings at an anchored
position). -/
def isNumeral : Str → Bool
  | [] => false
  | c :: cs => (decide ('1' ≤ c) && decide (c ≤ '9')) && cs.all Char.isDigit

/-- The numeric value `Number(...)` reads from a digit string. -/
def natOfDigits (s : Str) : Nat :=
  s.foldl (fun a c => 10 * a + (c.toNat - '0'.toNat)) 0

/-- Matching one entity tag against the search pattern
`^pre([1-9]+[0-9]*)suf$` the counter rule builds from the template
`pre ++ "{#}" ++ suf` (a single placeholder occurrence, prefix and suffix
regex-literal): the tag decomposes as `pre ++ digits ++ suf` - the length
of `digits` is forced, so the decomposition and the captured number are
unique. -/
def counterExtract (pre suf tag : Str) : Option Nat :=
  let mid := (tag.drop pre.length).take (tag.length - (pre.length + suf.length))
  if decide (pre.length + suf.length < tag.length)
      && decide (tag.take pre.length = pre)
      && decide (tag.drop (tag.length - suf.length) = suf)
      && isNumeral mid
  then some (natOfDigits mid) else none

/-- Whether an existing entity is found by `Tagger.getByTag(findTag)` inside
the counter rule: with a single `RegExp` query and default options,
`_testObject` succeeds exactly when some tag of the entity matches. -/
def counterMatchesDoc (pre suf : Str) (d : Doc) : Bool :=
  (getTags d).any (fun t => (counterExtract pre suf t).isSome)

/-- The numbers the counter rule extracts: for each matching entity, the
captured group of its first matching tag
(`getTags(...).find(t => t.match(findTag)).match(findTag)[1]`). -/
def observedNumbers (pre suf : Str) (docs : List Doc) : List Nat :=
  (docs.filter (counterMatchesDoc pre suf)).map
    (fun d => ((getTags d).findSome? (counterExtract pre suf)).getD 0)

/-- The scan of the counter rule (lines 882-887): `length = max(numbers)+1`,
then the first `i` in `1..length` not among the observed numbers (`none`
models the fall-through `undefined`, which is proved unreachable). -/
def counterNumber (nums : List Nat) : Option Nat :=
  (List.range' 1 (nums.foldr max 0 + 1)).find? (fun i => !nums.contains i)

/-- Decimal rendering of the number substituted into the template
(`tag.replace(regx, i)` stringifies `i`). -/
def natToStr (n : Nat) : Str := (toString n).data

/-- Model of the `TaggerHandler` counter rule (lines 865-888) for the
template `pre ++ "{#}" ++ suf`, run against the scene's entities: when no
entity matches the search pattern the placeholder becomes `1`; otherwise
the first gap of the observed numbers, scanning from 1 up to their maximum
plus one, is substituted. -/
def counterRuleApply (pre suf : Str) (docs : List Doc) : Option Str :=
  if (docs.filter (counterMatchesDoc pre suf)).isEmpty then
    some (pre ++ natToStr 1 ++ suf)
  else
    (counterNumber (observedNumbers pre suf docs)).map
      (fun i => pre ++ natToStr i ++ suf)

/-- The literal placeholder string of the unique-id rule (the four
characters left brace, i, d, right brace). -/
def idTok : Str := [Char.ofNat 123, 'i', 'd', Char.ofNat 125]

/-- The transient `temporaryIds` cache together with the state of the
id supply: `cache` maps a template string to the list the code pushes
generated ids onto; `counter` indexes the next fresh id. -/
structure IdState where
  cache : List (Str × List Str)
  counter : Nat
deriving DecidableEq

/-- Read `temporaryIds[tag]`: the entry of the first pair with this key. -/
def cacheLookup (c : List (Str × List Str)) (t : Str) : Option (List Str) :=
  (c.find? (fun e => decide (e.1 = t))).map (fun e => e.2)

/-- Model of `if (!temporaryIds[tag]) temporaryIds[tag] = [];
temporaryIds[tag].push(id)`: append the id to the END of the template's
list (not at the looked-up index). -/
def cachePush (c : List (Str × List Str)) (t : Str) (id : Str) :
    List (Str × List Str) :=
  match cacheLookup c t with
  | none => c ++ [(t, [id])]
  | some _ => c.map (fun e => if e.1 = t then (e.1, e.2 ++ [id]) else e)

/-- Model of `tag.replace(regx, rep)` for a global literal pattern: replace
every non-overlapping occurrence, scanning left to right.  Each step
consumes at least one character, so fuel equal to the string length
suffices. -/
def replaceTokFuel (pat rep : Str) : Nat → Str → Str
  | 0, s => s
  | _ + 1, [] => []
  | f + 1, c :: cs =>
    if decide (pat ≠ []) && pat.isPrefixOf (c :: cs) then
      rep ++ replaceTokFuel pat rep f ((c :: cs).drop pat.length)
    else c :: replaceTokFuel pat rep f cs

/-- Replace every occurrence of `pat` in `s` by `rep`. -/
def replaceTok (pat rep s : Str) : Str := replaceTokFuel pat rep s.length s

/-- The generating branch of the id rule: draw a fresh id from the supply,
push it onto the template's cache list, substitute it for every `(id)`
placeholder of the tag. -/
def idRuleGen (supply : Nat → Str) (tag : Str) (st : IdState) : Str × IdState :=
  let id := supply st.counter
  (replaceTok idTok id tag, ⟨cachePush st.cache tag id, st.counter + 1⟩)

/-- Model of the `TaggerHandler` id rule (lines 894-904):
`temporaryIds[tag][index]` is consulted; a present non-falsy id is reused
(all placeholder occurrences get the same id), otherwise a fresh id is
generated and PUSHED to the end of the list - the push position is the
list's current length, not `index`. -/
def idRule (supply : Nat → Str) (tag : Str) (index : Nat) (st : IdState) :
    Str × IdState :=
  match ((cacheLookup st.cache tag).getD []).get? index with
  | some id => if id = [] then idRuleGen supply tag st else (replaceTok idTok id tag, st)
  | none => idRuleGen supply tag st

/-- A deterministic injective id supply standing in for `randomID()`: the
n-th id drawn is `id` followed by the decimal of n. -/
def freshSupply (n : Nat) : Str := ['i', 'd'] ++ natToStr n

/-- The pattern used in the C1 evaluation: matches exactly the tag `a`. -/
def patA : Pattern := fun t => decide (t = ['a'])

/-- A two-tag entity used in the C1 evaluation. -/
def docAB : Doc := Doc.mk (some [['a'], ['b']])

/-- The template used in the C7 evaluations: the character x followed by the
id placeholder, so the placeholder sits at index 1 of a two-tag array. -/
def idTag1 : Str := 'x' :: idTok

/-- The empty id state at the start of a batch (`temporaryIds = {}`). -/
def idState0 : IdState := IdState.mk [] 0

/-! ## Helper lemmas -/

theorem dropWhile_trim_self (s : Str) :
    List.dropWhile isWS (List.rdropWhile isWS (List.dropWhile isWS s)) =
      List.rdropWhile isWS (List.dropWhile isWS s) := by
  rw [List.dropWhile_eq_self_iff]
  intro hl
  obtain ⟨u, hu⟩ := List.rdropWhile_prefix isWS (List.dropWhile isWS s)
  have hlen : 0 < (List.dropWhile isWS s).length := by
    rw [← hu, List.length_append]
    exact Nat.lt_of_lt_of_le hl (Nat.le_add_right _ _)
  have hget : (List.dropWhile isWS s).get ⟨0, hlen⟩ =
      (List.rdropWhile isWS (List.dropWhile isWS s)).get ⟨0, hl⟩ := by
    have h1 := List.get_of_eq hu.symm ⟨0, hlen⟩
    rw [h1, List.get_append_left]
  have := List.dropWhile_get_zero_not isWS s hlen
  rwa [hget] at this

theorem trimStr_idem (s : Str) : trimStr (trimStr s) = trimStr s := by
  unfold trimStr
  rw [dropWhile_trim_self, List.rdropWhile_idempotent]

theorem trimStr_of_mem_validate {x : Str} {l : List Str}
    (h : x ∈ validateTagList l) : trimStr x = x := by
  obtain ⟨y, _, rfl⟩ := List.mem_map.mp h
  exact trimStr_idem y

theorem mem_jsSetList_aux (l : List Str) :
    ∀ (acc : List Str) (x : Str),
      (x ∈ l.foldl (fun acc x => if x ∈ acc then acc else acc ++ [x]) acc ↔
        x ∈ acc ∨ x ∈ l) := by
  induction l with
  | nil => intro acc x; simp
  | cons a l ih =>
    intro acc x
    rw [List.foldl_cons, ih]
    by_cases ha : a ∈ acc
    · simp only [if_pos ha, List.mem_cons]
      constructor
      · rintro (h | h)
        · exact Or.inl h
        · exact Or.inr (Or.inr h)
      · rintro (h | h | h)
        · exact Or.inl h
        · exact Or.inl (h ▸ ha)
        · exact Or.inr h
    · simp only [if_neg ha, List.mem_append, List.mem_singleton, List.mem_cons]
      tauto

theorem mem_jsSetList (l : List Str) (x : Str) : x ∈ jsSetList l ↔ x ∈ l := by
  unfold jsSetList
  rw [mem_jsSetList_aux]
  simp

theorem nodup_jsSetList_aux (l : List Str) :
    ∀ acc : List Str, acc.Nodup →
      (l.foldl (fun acc x => if x ∈ acc then acc else acc ++ [x]) acc).Nodup := by
  induction l with
  | nil => intro acc h; simpa using h
  | cons a l ih =>
    intro acc h
    rw [List.foldl_cons]
    apply ih
    by_cases ha : a ∈ acc
    · simpa [if_pos ha] using h
    · rw [if_neg ha]
      simp [List.nodup_append, h, ha]

theorem nodup_jsSetList (l : List Str) : (jsSetList l).Nodup :=
  nodup_jsSetList_aux l [] List.nodup_nil

theorem toggleScan_eq :
    ∀ (tags inc : List Str), tags.Nodup →
      toggleScan tags inc =
        (tags.filter (fun t => decide (t ∉ inc)),
          inc.filter (fun x => decide (x ∉ tags))) := by
  intro tags
  induction tags with
  | nil =>
    intro inc _
    simp [toggleScan]
  | cons t ts ih =>
    intro inc h
    obtain ⟨ht, hts⟩ := List.nodup_cons.mp h
    by_cases hti : t ∈ inc
    · rw [toggleScan, if_pos hti, ih _ hts]
      rw [Prod.mk.injEq]
      constructor
      · rw [List.filter_cons_of_neg (by simp [hti])]
        apply List.filter_congr
        intro a ha
        have hat : a ≠ t := fun he => ht (he ▸ ha)
        simp [List.mem_filter, hat]
      · rw [List.filter_filter]
        apply List.filter_congr
        intro x _
        by_cases h1 : x = t <;> by_cases h2 : x ∈ ts <;>
          simp [h1, h2, List.mem_cons]
    · rw [toggleScan, if_neg hti]
      simp only [ih _ hts]
      rw [Prod.mk.injEq]
      constructor
      · rw [List.filter_cons_of_pos (by simp [hti])]
      · apply List.filter_congr
        intro x hx
        have hxt : x ≠ t := fun he => hti (he ▸ hx)
        have : (x ∉ t :: ts) ↔ (x ∉ ts) := by
          simp [List.mem_cons, not_or, hxt]
        rw [decide_eq_decide.mpr this]

theorem mem_computeToggle (V : List Str) (d : Doc) (x : Str) :
    x ∈ computeNewTags { isToggling := true } V d ↔
      ((x ∈ getTags d ∧ x ∉ V) ∨ (x ∈ V ∧ x ∉ getTags d)) := by
  have hs : computeNewTags { isToggling := true } V d =
      jsSetList ((toggleScan (jsSetList (getTags d)) (jsSetList V)).1 ++
        (toggleScan (jsSetList (getTags d)) (jsSetList V)).2) := rfl
  rw [hs, toggleScan_eq _ _ (nodup_jsSetList _), mem_jsSetList]
  simp only [List.mem_append, List.mem_filter, mem_jsSetList, decide_eq_true_eq]

theorem getTags_updateDoc_eq (opts : UOpts) (V : List Str) (d : Doc)
    (hr : opts.applyRules = false)
    (htr : ∀ y ∈ computeNewTags opts V d, trimStr y = y) :
    getTags (updateDoc id opts (some V) d) = computeNewTags opts V d := by
  unfold updateDoc
  rw [if_neg (by simp [hr])]
  by_cases h : computeNewTags opts V d = []
  · rw [if_pos (by simp [h, hr])]
    simp [getTags, validateTagList, h]
  · rw [if_neg (by simp [List.length_eq_zero, h, hr])]
    simp only [hr, if_false, Bool.false_eq_true]
    show getTags (Doc.mk (some (computeNewTags opts V d))) = _
    show validateTagList (computeNewTags opts V d) = _
    unfold validateTagList
    rw [List.map_congr_left htr]
    simp

theorem updateDoc_flag_none_iff (opts : UOpts) (V : List Str) (d : Doc)
    (hr : opts.applyRules = false) :
    (updateDoc id opts (some V) d).flag = none ↔ computeNewTags opts V d = [] := by
  unfold updateDoc
  rw [if_neg (by simp [hr])]
  by_cases h : computeNewTags opts V d = []
  · rw [if_pos (by simp [h, hr])]
    simp [h]
  · rw [if_neg (by simp [List.length_eq_zero, h, hr])]
    simp [h]

theorem filterPos_eq_any (T : List Str) (p : Pattern) :
    decide (0 < (T.filter p).length) = T.any p := by
  induction T with
  | nil => rfl
  | cons t ts ih =>
    cases hp : p t <;>
      simp [List.filter_cons, hp, List.any_cons, ← ih]

theorem mem_getTags_toggleOp (T : List Str) (d : Doc) (x : Str) :
    x ∈ getTags (toggleTagsOp T d) ↔
      ((x ∈ getTags d ∧ x ∉ validateTagList T) ∨
        (x ∈ validateTagList T ∧ x ∉ getTags d)) := by
  have htr : ∀ y ∈ computeNewTags { isToggling := true } (validateTagList T) d,
      trimStr y = y := by
    intro y hy
    rcases (mem_computeToggle (validateTagList T) d y).mp hy with ⟨h1, _⟩ | ⟨h1, _⟩
    · exact trimStr_of_mem_validate h1
    · exact trimStr_of_mem_validate h1
  have he : getTags (toggleTagsOp T d) =
      computeNewTags { isToggling := true } (validateTagList T) d :=
    getTags_updateDoc_eq _ _ _ rfl htr
  rw [he, mem_computeToggle]

theorem le_foldr_max : ∀ (l : List Nat) (v : Nat), v ∈ l → v ≤ l.foldr max 0 := by
  intro l
  induction l with
  | nil => simp
  | cons a l ih =>
    intro v hv
    rw [List.foldr_cons]
    rcases List.mem_cons.mp hv with h | h
    · exact h ▸ Nat.le_max_left _ _
    · exact Nat.le_trans (ih v h) (Nat.le_max_right _ _)

theorem find?_range'_spec (p : Nat → Bool) :
    ∀ (n s m : Nat), (List.range' s n).find? p = some m →
      p m = true ∧ s ≤ m ∧ ∀ j, s ≤ j → j < m → p j = false := by
  intro n
  induction n with
  | zero =>
    intro s m h
    simp [List.range'] at h
  | succ n ih =>
    intro s m h
    rw [List.range'_succ] at h
    by_cases hp : p s = true
    · rw [List.find?_cons_of_pos _ hp] at h
      obtain rfl : s = m := by injection h
      exact ⟨hp, Nat.le_refl s, fun j h1 h2 => absurd (Nat.lt_of_le_of_lt h1 h2) (Nat.lt_irrefl s)⟩
    · rw [List.find?_cons_of_neg _ hp] at h
      obtain ⟨h1, h2, h3⟩ := ih (s + 1) m h
      refine ⟨h1, Nat.le_trans (Nat.le_succ s) h2, fun j hj1 hj2 => ?_⟩
      by_cases hjs : j = s
      · subst hjs
        exact Bool.not_eq_true _ ▸ (by simpa using hp)
      · exact h3 j (by omega) hj2

theorem counterNumber_spec (nums : List Nat) :
    ∃ m, counterNumber nums = some m ∧ 0 < m ∧ m ∉ nums ∧
      ∀ j, 0 < j → j < m → j ∈ nums := by
  have hmem : (nums.foldr max 0 + 1) ∈ List.range' 1 (nums.foldr max 0 + 1) := by
    rw [List.mem_range'_1]
    omega
  have hnotin : nums.foldr max 0 + 1 ∉ nums := by
    intro hin
    have := le_foldr_max nums _ hin
    omega
  have hp : (!nums.contains (nums.foldr max 0 + 1)) = true := by
    simp [List.contains, hnotin]
  have hsome : ((List.range' 1 (nums.foldr max 0 + 1)).find?
      (fun i => !nums.contains i)).isSome :=
    List.find?_isSome.mpr ⟨_, hmem, hp⟩
  obtain ⟨m, hm⟩ := Option.isSome_iff_exists.mp hsome
  obtain ⟨h1, h2, h3⟩ := find?_range'_spec _ _ _ _ hm
  refine ⟨m, hm, h2, ?_, ?_⟩
  · intro hin
    simp [List.contains] at h1
    exact h1 hin
  · intro j hj0 hjm
    have := h3 j hj0 hjm
    simpa [List.contains] using this

/-! ## Claim theorems -/

/-- C1: with `matchExactly:true`, `_testObject` returns true iff the number
of query patterns matching at least one entity tag equals the query length
AND the entity's tag count equals the query length; it does not require
distinct patterns to have matched distinct entity tags (the concrete
conjuncts exhibit a duplicated pattern that matches only one entity tag of
a two-tag entity, yet the test succeeds). -/
theorem c1_match_exactly :
    (∀ (d : Doc) (pats : List Pattern) (ci : Bool),
      (testObject { matchExactly := true, caseInsensitive := ci } pats d = true ↔
        (matchedCount (ciTags ci d) pats = pats.length ∧
          (getTags d).length = pats.length)))
    ∧ testObject { matchExactly := true } [patA, patA] docAB = true
    ∧ ((getTags docAB).filter (fun t => [patA, patA].any (fun p => p t))).length = 1 := by
  refine ⟨?_, by decide, by decide⟩
  intro d pats ci
  have hm : pats.filter (fun p => decide (0 < ((ciTags ci d).filter p).length)) =
      pats.filter (fun p => (ciTags ci d).any p) :=
    List.filter_congr (fun p _ => filterPos_eq_any _ p)
  have hl : (ciTags ci d).length = (getTags d).length := by
    unfold ciTags
    cases ci <;> simp
  have hdef : testObject { matchExactly := true, caseInsensitive := ci } pats d =
      (decide ((pats.filter
          (fun p => decide (0 < ((ciTags ci d).filter p).length))).length = pats.length) &&
        decide ((ciTags ci d).length = pats.length)) := rfl
  rw [hdef, hm, Bool.and_eq_true, decide_eq_true_eq, decide_eq_true_eq, hl]
  exact Iff.rfl

/-- C9: an empty compiled query makes the default contains-all test accept
every entity (including tagless ones) and the `matchAny` test reject every
entity. -/
theorem c9_empty_query : ∀ (d : Doc) (ci : Bool),
    testObject { caseInsensitive := ci } [] d = true ∧
      testObject { matchAny := true, caseInsensitive := ci } [] d = false := by
  intro d ci
  exact ⟨rfl, rfl⟩

/-- C8: requesting both `matchAny` and `matchExactly` makes
`_getObjectsByTags` fail with the invalid-argument error before any
matching work, for every object collection and every tag input. -/
theorem c8_conflict_error : ∀ (ci : Bool) (ig : Option (List Doc))
    (objects : List Doc) (inTags : TagInput),
    getObjectsByTags
      { matchAny := true, matchExactly := true, caseInsensitive := ci, ignore := ig }
      objects inTags = Except.error errMsg := by
  intro ci ig objects inTags
  rfl

/-- C10: the read path (`getByTag`, `hasTags`, and the underlying object tag
test they filter with) leaves every entity's tag storage unchanged: the
world component returned by the state-passing wrappers is the input
world. -/
theorem c10_read_frame : ∀ (opts : QOpts) (inTags : TagInput)
    (world objs : List Doc),
    (runGetByTag opts inTags world).2 = world ∧
      (runHasTags objs inTags opts world).2 = world := by
  intro opts inTags world objs
  exact ⟨rfl, rfl⟩

/-- C6: toggling the same tag list twice restores the entity's tag set as an
unordered set (a single toggle keeps the tags outside the toggle set and
adds the toggle-set tags that were absent). -/
theorem c6_toggle_self_inverse : ∀ (d : Doc) (T : List Str),
    (getTags (toggleTagsOp T (toggleTagsOp T d))).toFinset = (getTags d).toFinset := by
  intro d T
  apply Finset.ext
  intro x
  simp only [List.mem_toFinset]
  rw [mem_getTags_toggleOp, mem_getTags_toggleOp]
  tauto

/-- C5 (amended): for Set/Add/Remove/Toggle the flag ends unset exactly when
the computed tag collection is empty; for the rule-application operation the
flag is always written by `setFlag` with the rule output - an empty result
is persisted as an empty stored collection, not as unset. -/
theorem c5_empty_means_unset :
    (∀ (T : List Str) (d : Doc),
      ((setTagsOp T d).flag = none ↔
          computeNewTags { isSetting := true } (validateTagList T) d = [])
        ∧ ((addTagsOp T d).flag = none ↔
          computeNewTags {} (validateTagList T) d = [])
        ∧ ((removeTagsOp T d).flag = none ↔
          computeNewTags { isAdding := false } (validateTagList T) d = [])
        ∧ ((toggleTagsOp T d).flag = none ↔
          computeNewTags { isToggling := true } (validateTagList T) d = []))
    ∧ (∀ (rules : List Str → List Str) (d : Doc),
      (applyTagRulesOp rules d).flag =
        some (rules (computeNewTags { applyRules := true } [] d))) := by
  constructor
  · intro T d
    exact ⟨updateDoc_flag_none_iff _ _ _ rfl, updateDoc_flag_none_iff _ _ _ rfl,
      updateDoc_flag_none_iff _ _ _ rfl, updateDoc_flag_none_iff _ _ _ rfl⟩
  · intro rules d
    simp [applyTagRulesOp, updateDoc]

/-- C5 counterexample: applying tag rules to an entity with no tags stores
an empty array through `setFlag` - the storage is NOT unset, refuting the
claim that an empty result after rule application is persisted as unset. -/
theorem c5_applyrules_counterexample :
    (applyTagRulesOp id (Doc.mk none)).flag = some [] ∧
      ¬(applyTagRulesOp id (Doc.mk none)).flag = none := by
  decide

/-- C3 counterexample: the `module.js` normalization keeps empty array
elements - `["a", "", "b"]` maps to itself, not to `["a", "b"]` as the
claim states. -/
theorem c3_normalize_counterexample :
    validateTagList [['a'], [], ['b']] = [['a'], [], ['b']] ∧
      ¬validateTagList [['a'], [], ['b']] = [['a'], ['b']] := by
  decide

/-- C3 (amended): both normalizations split string input on comma and trim
each piece, and trim every string element of array input; the
`src/unnamed/part_005` variant additionally drops empty pieces (so it maps
the claim's examples as stated), while the `src/scripts/module.js` variant
keeps them. -/
theorem c3_normalize_variants :
    validateTagsStr ("a, b ,c".data) = [['a'], ['b'], ['c']]
    ∧ validateTagList [['a'], [], [' ', 'b']] = [['a'], [], ['b']]
    ∧ validateTagsV3Str ("a, b ,c".data) = [['a'], ['b'], ['c']]
    ∧ validateTagsV3List [['a'], [], [' ', 'b']] = [['a'], ['b']]
    ∧ (∀ s : Str, validateTagsStr s = (splitOnComma s).map trimStr)
    ∧ (∀ l : List Str, validateTagsV3List l =
        (validateTagList l).filter (fun t => decide (t ≠ []))) :=
  ⟨by decide, by decide, by decide, by decide, fun s => rfl, fun l => rfl⟩

/-- C4 evaluation: the compiled query pattern is anchored and `*` is a
wildcard (`foo*` matches `foobar` but not `barfoo`, and a plain query never
matches a proper superstring), but `.` stays the any-character
metacharacter - the query tag `a.b` matches the entity tag `axb`, because
the source's `replaceAll(".", "\.")` replaces every dot with a plain dot. -/
theorem c4_dot_not_escaped :
    reMatchFull (compileQueryTag false ("a.b".data)) ("axb".data) = true
    ∧ reMatchFull (compileQueryTag false ("a.b".data)) ("a.b".data) = true
    ∧ reMatchFull (compileQueryTag false ("foo*".data)) ("foobar".data) = true
    ∧ reMatchFull (compileQueryTag false ("foo*".data)) ("barfoo".data) = false
    ∧ reMatchFull (compileQueryTag false ("foo".data)) ("foobar".data) = false := by
  decide

/-- C2: the counter rule substitutes the least positive integer absent from
the numbers extracted from matching existing tags - in general the result
is `pre ++ m ++ suf` with `m` positive, not observed, and every smaller
positive integer observed; with no matching entity the result is 1; with
observed `1, 2` the template `foo_(#)_tag` resolves to `foo_3_tag`, and with
observed `1, 3` to `foo_2_tag`. -/
theorem c2_counter_rule :
    (∀ (pre suf : Str) (docs : List Doc), ∃ m : Nat,
      counterRuleApply pre suf docs = some (pre ++ natToStr m ++ suf)
        ∧ 0 < m ∧ m ∉ observedNumbers pre suf docs
        ∧ ∀ j, 0 < j → j < m → j ∈ observedNumbers pre suf docs)
    ∧ (∀ pre suf : Str, counterRuleApply pre suf [] = some (pre ++ natToStr 1 ++ suf))
    ∧ counterRuleApply ("foo_".data) ("_tag".data)
        [Doc.mk (some [("foo_1_tag".data)]), Doc.mk (some [("foo_2_tag".data)])]
        = some ("foo_3_tag".data)
    ∧ counterRuleApply ("foo_".data) ("_tag".data)
        [Doc.mk (some [("foo_1_tag".data)]), Doc.mk (some [("foo_3_tag".data)])]
        = some ("foo_2_tag".data) := by
  refine ⟨?_, fun pre suf => rfl, by decide, by decide⟩
  intro pre suf docs
  by_cases h : (docs.filter (counterMatchesDoc pre suf)).isEmpty = true
  · refine ⟨1, ?_, Nat.one_pos, ?_, ?_⟩
    · unfold counterRuleApply
      rw [if_pos h]
    · have hnil : docs.filter (counterMatchesDoc pre suf) = [] :=
        List.isEmpty_iff.mp h
      simp [observedNumbers, hnil]
    · intro j hj0 hj1
      omega
  · obtain ⟨m, hm, hpos, hnotin, hmin⟩ := counterNumber_spec (observedNumbers pre suf docs)
    refine ⟨m, ?_, hpos, hnotin, hmin⟩
    unfold counterRuleApply
    rw [if_neg h, hm]
    rfl

/-- C7 counterexample: within one batch, resolving the id placeholder for
the same template at the same index 1 twice from an empty cache yields two
DIFFERENT ids (`xid0` then `xid1`): the first generation is pushed to
position 0 of the template's list, so the second lookup at index 1 misses
and generates afresh, refuting the claimed (template, index) reuse. -/
theorem c7_id_counterexample :
    (idRule freshSupply idTag1 1 idState0).1 = ("xid0".data)
    ∧ (idRule freshSupply idTag1 1 (idRule freshSupply idTag1 1 idState0).2).1
        = ("xid1".data)
    ∧ ¬(("xid0".data : Str) = ("xid1".data)) := by
  decide

/-- C7 (amended): the id cache reuses an id only when the template's list
already has an entry at the looked-up index (generated ids are pushed to
the end of the list, not stored at the index); a miss generates and appends
a fresh id, so resolution at the same index reuses one id from the point
the list covers that index (third resolution at index 1 equals the second),
and a single tag containing the placeholder twice gets one consistent id
via global replacement. -/
theorem c7_id_cache :
    (∀ (supply : Nat → Str) (tag : Str) (i : Nat) (st : IdState)
        (ids : List Str) (id : Str),
      cacheLookup st.cache tag = some ids → ids.get? i = some id → id ≠ [] →
        idRule supply tag i st = (replaceTok idTok id tag, st))
    ∧ (∀ (supply : Nat → Str) (tag : Str) (i : Nat) (st : IdState),
        ((cacheLookup st.cache tag).getD []).get? i = none →
          idRule supply tag i st = idRuleGen supply tag st)
    ∧ ((idRule freshSupply idTag1 1
          (idRule freshSupply idTag1 1
            (idRule freshSupply idTag1 1 idState0).2).2).1 =
        (idRule freshSupply idTag1 1 (idRule freshSupply idTag1 1 idState0).2).1
      ∧ (idRule freshSupply idTag1 1
          (idRule freshSupply idTag1 1
            (idRule freshSupply idTag1 1 idState0).2).2).2 =
        (idRule freshSupply idTag1 1 (idRule freshSupply idTag1 1 idState0).2).2)
    ∧ (idRule freshSupply (idTok ++ ('y' :: idTok)) 0 idState0).1 = ("id0yid0".data) := by
  refine ⟨?_, ?_, by decide, by decide⟩
  · intro supply tag i st ids id h1 h2 h3
    unfold idRule
    rw [h1]
    simp only [Option.getD_some]
    rw [h2]
    simp [h3]
  · intro supply tag i st h
    unfold idRule
    rw [h]
